import Mathlib

/-!
Shallow embedding of the scheduling core of the AdventofAgents repository.

Part 1 embeds `src/calendar_agent/calendar_tools.py`:
  - `find_slot_in_range` (availability scanner for one day range),
  - `find_available_slots` (near/mid/far slot selector),
  - the calendar write request built by `book_appointment` and the result
    dictionary it returns.

Time is modelled in whole minutes since an epoch whose day 0 is a Monday,
so `weekday d = d % 7` matches Python's `date.weekday()` (Mon = 0) and the
code's weekend test `weekday() >= 5`. The Python code zeroes minute,
second and microsecond of every candidate (`replace(hour=h, minute=0,
second=0, microsecond=0)`), so `base_time` enters the scan only through
its calendar day; we therefore pass the base day index `baseDay =
base_time // minutesPerDay` directly. Candidate events are the parsed
`(start, end)` timestamp pairs, in minutes.
-/

set_option linter.unusedVariables false
set_option maxRecDepth 4000

/-- A parsed calendar event: a half-open interval `[start, endT)` in minutes
since the epoch (the parse of `event['start']` / `event['end']`). -/
structure CalEvent where
  start : Nat
  endT : Nat
  deriving Repr, DecidableEq

/-- A slot returned by `find_slot_in_range`: absolute start and end in
minutes, plus `aware`, which records whether the returned timestamps are
timezone-aware (their `isoformat()` carries a `+00:00` offset). The code
attaches `tzinfo=timezone.utc` only inside the per-event loop, so `aware`
is exactly "that loop ran at least once". -/
structure Slot where
  start : Nat
  endT : Nat
  aware : Bool
  deriving Repr, DecidableEq

def minutesPerDay : Nat := 1440

/-- Weekday of an absolute day index; day 0 of the epoch is a Monday, so
`weekday d ≥ 5` is Saturday/Sunday, matching `current_date.weekday() >= 5`. -/
def weekday (d : Nat) : Nat := d % 7

/-- Business hours: 9 AM to 5 PM (`business_start = 9`, `business_end = 17`). -/
def business_start : Nat := 9

def business_end : Nat := 17

/-- The conflict test of `find_slot_in_range`:
`not (slot_end <= event_start or slot_start >= event_end)`. -/
def eventBlocks (slotStart slotEnd : Nat) (e : CalEvent) : Bool :=
  !(decide (slotEnd ≤ e.start) || decide (e.endT ≤ slotStart))

/-- The per-event loop body of `find_slot_in_range`, threading the
`is_available` outcome and whether the timezone-attachment step ran.
For each event the code first attaches `tzinfo=timezone.utc` to the
(naive) candidate, then tests the conflict and breaks on the first hit;
returns `(is_available, aware)`. -/
def checkEvents : List CalEvent → Nat → Nat → Bool → Bool × Bool
  | [], _, _, aware => (true, aware)
  | e :: rest, s, t, _ =>
      if eventBlocks s t e then (false, true)
      else checkEvents rest s t true

/-- Python `range(business_start, business_end - duration_hours + 1)`:
the candidate start hours scanned on one day (truncated subtraction gives
the same empty list as Python's empty `range` whenever the bounds cross). -/
def hourRange (dur : Nat) : List Nat :=
  (List.range (business_end - dur + 1 - business_start)).map
    (fun i => business_start + i)

/-- Start of the candidate slot at hour `h` of absolute day `day`, in
minutes (`current_date.replace(hour=h, minute=0, second=0, microsecond=0)`). -/
def slotStartOf (day h : Nat) : Nat := day * minutesPerDay + h * 60

/-- The inner hour loop of `find_slot_in_range` on one day: return the
first candidate hour whose `checkEvents` pass leaves `is_available` true. -/
def findSlotInHours (events : List CalEvent) (day dur : Nat) : List Nat → Option Slot
  | [] => none
  | h :: hs =>
      let s := slotStartOf day h
      let t := s + dur * 60
      let r := checkEvents events s t false
      if r.1 then some ⟨s, t, r.2⟩ else findSlotInHours events day dur hs

/-- Python `range(start_day, end_day + 1)`: the day offsets scanned. -/
def dayList (start_day end_day : Nat) : List Nat :=
  (List.range (end_day + 1 - start_day)).map (fun i => start_day + i)

/-- The outer day loop of `find_slot_in_range`: skip weekend days
(`weekday >= 5`), otherwise scan the day's hours and return the first hit. -/
def findSlotInDays (events : List CalEvent) (baseDay dur : Nat) : List Nat → Option Slot
  | [] => none
  | off :: rest =>
      if 5 ≤ weekday (baseDay + off) then findSlotInDays events baseDay dur rest
      else
        match findSlotInHours events (baseDay + off) dur (hourRange dur) with
        | some s => some s
        | none => findSlotInDays events baseDay dur rest

/-- `find_slot_in_range(events, base_time, start_day, end_day, duration_hours)`:
find an available slot within a specific day range, or `None`. -/
def find_slot_in_range (events : List CalEvent) (baseDay start_day end_day dur : Nat) :
    Option Slot :=
  findSlotInDays events baseDay dur (dayList start_day end_day)

/-- The hard-coded near/mid/far day ranges of `find_available_slots`. -/
def zoneRanges : List (Nat × Nat) := [(1, 5), (6, 10), (11, 14)]

/-- `find_available_slots(calendar_id, days_ahead, meeting_duration_hours)`,
with the external pieces made explicit: `events` is the list returned by the
calendar provider and `baseDay` the day index of `utcnow()`. `days_ahead`
is used by the code only to bound the external event fetch (`timeMax`); the
scanned day ranges are the hard-coded `zoneRanges`, appending each
non-`None` per-range slot in order. -/
def find_available_slots (events : List CalEvent) (baseDay days_ahead dur : Nat) :
    List Slot :=
  zoneRanges.filterMap (fun r => find_slot_in_range events baseDay r.1 r.2 dur)

/-- A day/hour candidate of the scanner: `off` days after the base day is a
non-weekend day, `h` is one of the scanned business hours, and the slot
`[start, start + dur·60)` overlaps no event. -/
def slotFree (events : List CalEvent) (s t : Nat) : Prop :=
  ∀ e ∈ events, t ≤ e.start ∨ e.endT ≤ s

def dayCandidate (events : List CalEvent) (baseDay dur off h : Nat) : Prop :=
  weekday (baseDay + off) < 5 ∧ h ∈ hourRange dur ∧
    slotFree events (slotStartOf (baseDay + off) h) (slotStartOf (baseDay + off) h + dur * 60)

instance (events : List CalEvent) (s t : Nat) : Decidable (slotFree events s t) := by
  unfold slotFree; infer_instance

instance (events : List CalEvent) (baseDay dur off h : Nat) :
    Decidable (dayCandidate events baseDay dur off h) := by
  unfold dayCandidate; infer_instance

/-!
The calendar write request built by `book_appointment` (lines 147–173) and
the result dictionary it returns (lines 182–186). The provider call itself
(`service.events().insert(...).execute()`) is an external collaborator; its
response is modelled as `ProviderEvent`.
-/

/-- One of the `start` / `end` objects of the write request: a `dateTime`
string plus an optional `timeZone` label field. -/
structure EventTime where
  dateTime : String
  timeZone : Option String
  deriving Repr, DecidableEq

/-- The event body `book_appointment` constructs for the provider write. -/
structure GEventBody where
  summary : String
  description : String
  start : EventTime
  endT : EventTime
  attendees : List String
  deriving Repr, DecidableEq

/-- Lines 147–173 of `calendar_tools.py`: the write-request construction of
`book_appointment`. Total: nothing in the code validates the inputs or
fails. -/
def book_event_body (start_time end_time customer_email customer_name vehicle_info : String) :
    GEventBody :=
  { summary := "Vehicle Trade-In Appraisal - " ++ customer_name
    description :=
      "Vehicle trade-in appraisal appointment.\n\nVehicle Information:\n" ++ vehicle_info
    start := { dateTime := start_time, timeZone := some "America/New_York" }
    endT := { dateTime := end_time, timeZone := some "America/New_York" }
    attendees := [customer_email] }

/-- The provider's response to the insert call (external collaborator):
`event.get('id')`, `event.get('htmlLink')`, and whatever `status` the
provider reports for the created event. -/
structure ProviderEvent where
  id : Option String
  htmlLink : Option String
  status : Option String
  deriving Repr, DecidableEq

/-- The dictionary `book_appointment` returns. -/
structure BookResult where
  event_id : Option String
  html_link : Option String
  status : String
  deriving Repr, DecidableEq

/-- Lines 182–186 of `calendar_tools.py`: the returned dictionary uses the
constant string `'confirmed'` as `status`, not the provider's status. -/
def book_result (ev : ProviderEvent) : BookResult :=
  { event_id := ev.id, html_link := ev.htmlLink, status := "confirmed" }

/-!
Part 2 embeds the final-response assembly of
`OrchestratorAgentExecutor.execute` (`src/orchestrator_agent/a2a_server.py`,
lines 158–191): the accumulated agent response string is split at the first
`---a2ui_JSON---` delimiter; the text before it becomes a `TextPart` when
non-blank; the remainder is markdown-fence-cleaned and `json.loads`-decoded
into `DataPart`s (one per array element), falling back to a `TextPart` on a
decode error. Strings are modelled as `List Char`; `json.loads` is an
external library call, modelled as an abstract `parse` parameter returning
`Option JsonVal`.
-/

/-- Python `str.isspace` characters relevant to `strip()`. -/
def pyIsSpace (c : Char) : Bool :=
  c = ' ' || c = '\t' || c = '\n' || c = '\r' || c = Char.ofNat 11 || c = Char.ofNat 12

/-- Python `s.lstrip(chars)`: drop leading characters belonging to the SET
`cs` (Python treats the argument as a character set, not a literal). -/
def lstripChars (cs : List Char) (s : List Char) : List Char :=
  s.dropWhile (fun c => cs.contains c)

/-- Python `s.rstrip(chars)`. -/
def rstripChars (cs : List Char) (s : List Char) : List Char :=
  (s.reverse.dropWhile (fun c => cs.contains c)).reverse

/-- Python `s.strip()`. -/
def stripWs (s : List Char) : List Char :=
  ((s.dropWhile pyIsSpace).reverse.dropWhile pyIsSpace).reverse

/-- Python `s.split(delim, 1)` when `delim` occurs in `s`: the text before
the first occurrence and the text after it; `none` when `delim` does not
occur (so `isSome` is Python's `delim in s` for non-empty `delim`). -/
def splitOnce (delim : List Char) : List Char → Option (List Char × List Char)
  | [] => if delim.isEmpty then some ([], []) else none
  | c :: rest =>
      if delim.isPrefixOf (c :: rest) then some ([], (c :: rest).drop delim.length)
      else
        match splitOnce delim rest with
        | some (pre, post) => some (c :: pre, post)
        | none => none

def a2uiDelim : List Char := "---a2ui_JSON---".data

/-- A decoded JSON value, the result type of the `json.loads` collaborator. -/
inductive JsonVal where
  | null : JsonVal
  | bool : Bool → JsonVal
  | num : Int → JsonVal
  | str : List Char → JsonVal
  | arr : List JsonVal → JsonVal
  | obj : List (List Char × JsonVal) → JsonVal

/-- An outbound part of the final message: `TextPart` or an A2UI `DataPart`. -/
inductive PartM where
  | text : List Char → PartM
  | data : JsonVal → PartM

def backtickChar : Char := Char.ofNat 96

/-- Lines 169–175, the markdown-fence cleaning chain: strip whitespace,
lstrip the character set of three backticks plus "json", lstrip the
backtick set, rstrip the backtick set, strip whitespace again (Python
lstrip/rstrip arguments are character sets). -/
def cleanJsonString (s : List Char) : List Char :=
  stripWs (rstripChars [backtickChar]
    (lstripChars [backtickChar]
      (lstripChars [backtickChar, 'j', 's', 'o', 'n'] (stripWs s))))

/-- Lines 158–191: assembly of `final_parts` from the full response string.
`parse` is the `json.loads` collaborator (`none` models a raised
`JSONDecodeError`). -/
def finalParts (parse : List Char → Option JsonVal) (fullResponse : List Char) :
    List PartM :=
  match splitOnce a2uiDelim fullResponse with
  | none => [PartM.text (stripWs fullResponse)]
  | some (textContent, jsonString) =>
      (if (stripWs textContent).isEmpty then [] else [PartM.text (stripWs textContent)]) ++
      (if (stripWs jsonString).isEmpty then []
       else
         match parse (cleanJsonString jsonString) with
         | some (JsonVal.arr xs) => xs.map PartM.data
         | some j => [PartM.data j]
         | none => [PartM.text jsonString])

/-- A concrete stand-in for the `json.loads` collaborator, used in the
concrete checks below: it recognises exactly the document "[1,2]". -/
def sampleParse (s : List Char) : Option JsonVal :=
  if s = "[1,2]".data then some (JsonVal.arr [JsonVal.num 1, JsonVal.num 2]) else none

/-- A concrete agent response containing the A2UI delimiter. -/
def sampleResponse : List Char := "Here you go ---a2ui_JSON--- [1,2]".data

/-- Zone-membership test on a returned slot: its calendar day lies in the
day range `r` of the search base day `b`. -/
def inZoneSlot (b : Nat) (r : Nat × Nat) (s : Slot) : Bool :=
  decide (b + r.1 ≤ s.start / minutesPerDay) && decide (s.start / minutesPerDay ≤ b + r.2)

/-!
Helper lemmas about the scanner loops.
-/

theorem checkEvents_snd (evs : List CalEvent) (s t : Nat) (a : Bool) :
    (checkEvents evs s t a).2 = (a || !evs.isEmpty) := by
  induction evs generalizing a with
  | nil => simp [checkEvents]
  | cons e rest ih =>
      by_cases hb : eventBlocks s t e = true
      · simp [checkEvents, hb]
      · simp [checkEvents, hb, ih]

theorem checkEvents_fst (evs : List CalEvent) (s t : Nat) (a : Bool) :
    (checkEvents evs s t a).1 = true ↔ ∀ e ∈ evs, eventBlocks s t e = false := by
  induction evs generalizing a with
  | nil => simp [checkEvents]
  | cons e rest ih =>
      by_cases hb : eventBlocks s t e = true
      · simp [checkEvents, hb]
      · simp only [Bool.not_eq_true] at hb
        simp [checkEvents, hb, ih]

theorem eventBlocks_false_iff (s t : Nat) (e : CalEvent) :
    eventBlocks s t e = false ↔ (t ≤ e.start ∨ e.endT ≤ s) := by
  simp [eventBlocks]
  omega

theorem checkEvents_fst_slotFree (evs : List CalEvent) (s t : Nat) (a : Bool) :
    (checkEvents evs s t a).1 = true ↔ slotFree evs s t := by
  rw [checkEvents_fst]
  unfold slotFree
  constructor
  · intro hall e he
    exact (eventBlocks_false_iff s t e).mp (hall e he)
  · intro hall e he
    exact (eventBlocks_false_iff s t e).mpr (hall e he)

theorem mem_hourRange (h dur : Nat) :
    h ∈ hourRange dur ↔ business_start ≤ h ∧ h + dur ≤ business_end := by
  simp only [hourRange, business_start, business_end, List.mem_map, List.mem_range]
  constructor
  · rintro ⟨i, hi, rfl⟩
    omega
  · rintro ⟨h1, h2⟩
    exact ⟨h - 9, by omega, by omega⟩

theorem hourRange_pairwise (dur : Nat) : (hourRange dur).Pairwise (· ≤ ·) :=
  List.Pairwise.map _ (fun a b hab => by omega) (List.pairwise_lt_range _)

theorem mem_dayList (off sd ed : Nat) : off ∈ dayList sd ed ↔ sd ≤ off ∧ off ≤ ed := by
  simp only [dayList, List.mem_map, List.mem_range]
  constructor
  · rintro ⟨i, hi, rfl⟩
    omega
  · rintro ⟨h1, h2⟩
    exact ⟨off - sd, by omega, by omega⟩

theorem dayList_pairwise (sd ed : Nat) : (dayList sd ed).Pairwise (· ≤ ·) :=
  List.Pairwise.map _ (fun a b hab => by omega) (List.pairwise_lt_range _)

theorem findSlotInHours_none (events : List CalEvent) (day dur : Nat) (hs : List Nat) :
    findSlotInHours events day dur hs = none ↔
      ∀ h ∈ hs, ¬ slotFree events (slotStartOf day h) (slotStartOf day h + dur * 60) := by
  induction hs with
  | nil => simp [findSlotInHours]
  | cons h rest ih =>
      simp only [findSlotInHours]
      by_cases hc : slotFree events (slotStartOf day h) (slotStartOf day h + dur * 60)
      · rw [if_pos ((checkEvents_fst_slotFree _ _ _ _).mpr hc)]
        simp only [List.forall_mem_cons]
        constructor
        · intro hsome
          exact (Option.some_ne_none _ hsome).elim
        · rintro ⟨hneg, _⟩
          exact absurd hc hneg
      · rw [if_neg (fun hh => hc ((checkEvents_fst_slotFree _ _ _ _).mp hh))]
        rw [ih]
        simp only [List.forall_mem_cons]
        exact ⟨fun hr => ⟨hc, hr⟩, fun hr => hr.2⟩

theorem findSlotInHours_some (events : List CalEvent) (day dur : Nat) (hs : List Nat)
    (hsort : hs.Pairwise (· ≤ ·)) (slot : Slot)
    (hres : findSlotInHours events day dur hs = some slot) :
    ∃ h ∈ hs, slot.start = slotStartOf day h ∧ slot.endT = slot.start + dur * 60 ∧
      slot.aware = !events.isEmpty ∧
      slotFree events slot.start slot.endT ∧
      ∀ h2 ∈ hs,
        slotFree events (slotStartOf day h2) (slotStartOf day h2 + dur * 60) → h ≤ h2 := by
  induction hs with
  | nil => cases hres
  | cons h rest ih =>
      rw [List.pairwise_cons] at hsort
      simp only [findSlotInHours] at hres
      by_cases hc : slotFree events (slotStartOf day h) (slotStartOf day h + dur * 60)
      · rw [if_pos ((checkEvents_fst_slotFree _ _ _ _).mpr hc)] at hres
        injection hres with hres
        subst hres
        refine ⟨h, List.mem_cons_self _ _, rfl, rfl, ?_, hc, ?_⟩
        · rw [checkEvents_snd]
          simp
        · intro h2 hmem hfree
          rcases List.mem_cons.mp hmem with rfl | hmem2
          · exact le_rfl
          · exact hsort.1 h2 hmem2
      · rw [if_neg (fun hh => hc ((checkEvents_fst_slotFree _ _ _ _).mp hh))] at hres
        obtain ⟨h2, hmem, he1, he2, he3, he4, hmin⟩ := ih hsort.2 hres
        refine ⟨h2, List.mem_cons_of_mem _ hmem, he1, he2, he3, he4, ?_⟩
        intro h3 hmem3 hfree3
        rcases List.mem_cons.mp hmem3 with rfl | hmem4
        · exact absurd hfree3 hc
        · exact hmin h3 hmem4 hfree3

theorem findSlotInDays_none (events : List CalEvent) (b dur : Nat) (offs : List Nat) :
    findSlotInDays events b dur offs = none ↔
      ∀ off ∈ offs, ∀ h, ¬ dayCandidate events b dur off h := by
  induction offs with
  | nil => simp [findSlotInDays]
  | cons off rest ih =>
      simp only [findSlotInDays]
      by_cases hw : 5 ≤ weekday (b + off)
      · rw [if_pos hw, ih]
        simp only [List.forall_mem_cons]
        constructor
        · intro hr
          refine ⟨?_, hr⟩
          intro h hc
          exact absurd hc.1 (by omega)
        · exact fun hr => hr.2
      · rw [if_neg hw]
        cases hh : findSlotInHours events (b + off) dur (hourRange dur) with
        | some s =>
            simp only [List.forall_mem_cons]
            constructor
            · intro hsome
              exact (Option.some_ne_none _ hsome).elim
            · rintro ⟨hno, _⟩
              obtain ⟨h, hmem, he1, he2, _, hfree, _⟩ :=
                findSlotInHours_some events (b + off) dur (hourRange dur)
                  (hourRange_pairwise dur) s hh
              rw [he2, he1] at hfree
              exact absurd ⟨by omega, hmem, hfree⟩ (hno h)
        | none =>
            rw [ih]
            simp only [List.forall_mem_cons]
            constructor
            · intro hr
              refine ⟨?_, hr⟩
              intro h hc
              exact absurd hc.2.2 ((findSlotInHours_none events (b + off) dur
                (hourRange dur)).mp hh h hc.2.1)
            · exact fun hr => hr.2

theorem findSlotInDays_some (events : List CalEvent) (b dur : Nat) (offs : List Nat)
    (hsort : offs.Pairwise (· ≤ ·)) (slot : Slot)
    (hres : findSlotInDays events b dur offs = some slot) :
    ∃ off ∈ offs, ∃ h, dayCandidate events b dur off h ∧
      slot.start = slotStartOf (b + off) h ∧ slot.endT = slot.start + dur * 60 ∧
      slot.aware = !events.isEmpty ∧
      ∀ off2 ∈ offs, ∀ h2, dayCandidate events b dur off2 h2 →
        off ≤ off2 ∧ (off = off2 → h ≤ h2) := by
  induction offs with
  | nil => cases hres
  | cons off rest ih =>
      rw [List.pairwise_cons] at hsort
      simp only [findSlotInDays] at hres
      by_cases hw : 5 ≤ weekday (b + off)
      · rw [if_pos hw] at hres
        obtain ⟨off2, hmem, h2, hc, he1, he2, he3, hmin⟩ := ih hsort.2 hres
        refine ⟨off2, List.mem_cons_of_mem _ hmem, h2, hc, he1, he2, he3, ?_⟩
        intro off3 hmem3 h3 hc3
        rcases List.mem_cons.mp hmem3 with rfl | hmem4
        · exact absurd hc3.1 (by omega)
        · exact hmin off3 hmem4 h3 hc3
      · rw [if_neg hw] at hres
        cases hh : findSlotInHours events (b + off) dur (hourRange dur) with
        | some s =>
            rw [hh] at hres
            injection hres with hres
            rw [hres] at hh
            obtain ⟨h, hmem, he1, he2, he3, hfree, hmin⟩ :=
              findSlotInHours_some events (b + off) dur (hourRange dur)
                (hourRange_pairwise dur) slot hh
            refine ⟨off, List.mem_cons_self _ _, h,
              ⟨by omega, hmem, by rw [← he1, ← he2]; exact hfree⟩, he1, he2, he3, ?_⟩
            intro off3 hmem3 h3 hc3
            rcases List.mem_cons.mp hmem3 with rfl | hmem4
            · exact ⟨le_rfl, fun _ => hmin h3 hc3.2.1 hc3.2.2⟩
            · refine ⟨hsort.1 off3 hmem4, ?_⟩
              intro heq
              exact hmin h3 hc3.2.1 (heq ▸ hc3.2.2)
        | none =>
            rw [hh] at hres
            obtain ⟨off2, hmem, h2, hc, he1, he2, he3, hmin⟩ := ih hsort.2 hres
            refine ⟨off2, List.mem_cons_of_mem _ hmem, h2, hc, he1, he2, he3, ?_⟩
            intro off3 hmem3 h3 hc3
            rcases List.mem_cons.mp hmem3 with rfl | hmem4
            · exact absurd hc3.2.2 ((findSlotInHours_none events (b + off3) dur
                (hourRange dur)).mp hh h3 hc3.2.1)
            · exact hmin off3 hmem4 h3 hc3

theorem find_slot_in_range_none (events : List CalEvent) (b sd ed dur : Nat) :
    find_slot_in_range events b sd ed dur = none ↔
      ∀ off, sd ≤ off → off ≤ ed → ∀ h, ¬ dayCandidate events b dur off h := by
  rw [find_slot_in_range, findSlotInDays_none]
  constructor
  · intro hr off h1 h2
    exact hr off ((mem_dayList off sd ed).mpr ⟨h1, h2⟩)
  · intro hr off hmem
    obtain ⟨h1, h2⟩ := (mem_dayList off sd ed).mp hmem
    exact hr off h1 h2

theorem find_slot_in_range_some (events : List CalEvent) (b sd ed dur : Nat) (slot : Slot)
    (hres : find_slot_in_range events b sd ed dur = some slot) :
    ∃ off, sd ≤ off ∧ off ≤ ed ∧ ∃ h, dayCandidate events b dur off h ∧
      slot.start = slotStartOf (b + off) h ∧ slot.endT = slot.start + dur * 60 ∧
      slot.aware = !events.isEmpty ∧
      ∀ off2, sd ≤ off2 → off2 ≤ ed → ∀ h2, dayCandidate events b dur off2 h2 →
        off ≤ off2 ∧ (off = off2 → h ≤ h2) := by
  rw [find_slot_in_range] at hres
  obtain ⟨off, hmem, h, hc, he1, he2, he3, hmin⟩ :=
    findSlotInDays_some events b dur (dayList sd ed) (dayList_pairwise sd ed) slot hres
  obtain ⟨hb1, hb2⟩ := (mem_dayList off sd ed).mp hmem
  refine ⟨off, hb1, hb2, h, hc, he1, he2, he3, ?_⟩
  intro off2 h1 h2 h3 hc3
  exact hmin off2 ((mem_dayList off2 sd ed).mpr ⟨h1, h2⟩) h3 hc3

theorem find_available_slots_eq (events : List CalEvent) (b da dur : Nat) :
    find_available_slots events b da dur =
      (find_slot_in_range events b 1 5 dur).toList ++
      (find_slot_in_range events b 6 10 dur).toList ++
      (find_slot_in_range events b 11 14 dur).toList := by
  rcases h1 : find_slot_in_range events b 1 5 dur with _ | s1 <;>
    rcases h2 : find_slot_in_range events b 6 10 dur with _ | s2 <;>
      rcases h3 : find_slot_in_range events b 11 14 dur with _ | s3 <;>
        simp [find_available_slots, zoneRanges, List.filterMap_cons, h1, h2, h3]

theorem mem_find_available_slots (events : List CalEvent) (b da dur : Nat) (s : Slot) :
    s ∈ find_available_slots events b da dur ↔
      find_slot_in_range events b 1 5 dur = some s ∨
      find_slot_in_range events b 6 10 dur = some s ∨
      find_slot_in_range events b 11 14 dur = some s := by
  rw [find_available_slots_eq]
  simp [Option.mem_toList, eq_comm]

/-- The day index of a returned slot lies in the scanned day range, and its
start time decomposes as a business-hours start on that day. -/
theorem find_slot_in_range_day_bounds (events : List CalEvent) (b sd ed dur : Nat)
    (slot : Slot) (hres : find_slot_in_range events b sd ed dur = some slot) :
    b + sd ≤ slot.start / minutesPerDay ∧ slot.start / minutesPerDay ≤ b + ed := by
  obtain ⟨off, hb1, hb2, h, hc, he1, he2, he3, hmin⟩ :=
    find_slot_in_range_some events b sd ed dur slot hres
  obtain ⟨hh1, hh2⟩ := (mem_hourRange h dur).mp hc.2.1
  rw [he1]
  simp only [slotStartOf, minutesPerDay, business_start, business_end] at *
  omega

theorem pairwise_toList_append (o1 o2 o3 : Option Slot) (R : Slot → Slot → Prop)
    (h12 : ∀ a c, o1 = some a → o2 = some c → R a c)
    (h13 : ∀ a c, o1 = some a → o3 = some c → R a c)
    (h23 : ∀ a c, o2 = some a → o3 = some c → R a c) :
    (o1.toList ++ o2.toList ++ o3.toList).Pairwise R := by
  cases o1 with
  | none =>
      cases o2 with
      | none => cases o3 <;> simp [List.pairwise_cons]
      | some a2 =>
          cases o3 with
          | none => simp [List.pairwise_cons]
          | some a3 => simp [List.pairwise_cons, h23 a2 a3 rfl rfl]
  | some a1 =>
      cases o2 with
      | none =>
          cases o3 with
          | none => simp [List.pairwise_cons]
          | some a3 => simp [List.pairwise_cons, h13 a1 a3 rfl rfl]
      | some a2 =>
          cases o3 with
          | none => simp [List.pairwise_cons, h12 a1 a2 rfl rfl]
          | some a3 =>
              simp [List.pairwise_cons, h12 a1 a2 rfl rfl, h13 a1 a3 rfl rfl,
                h23 a2 a3 rfl rfl]

theorem filter_zone_other (events : List CalEvent) (b dur sd ed : Nat) (r : Nat × Nat)
    (hsep : ed < r.1 ∨ r.2 < sd) :
    ((find_slot_in_range events b sd ed dur).toList.filter (inZoneSlot b r)).length = 0 := by
  cases hres : find_slot_in_range events b sd ed dur with
  | none => rfl
  | some s =>
      have hb := find_slot_in_range_day_bounds events b sd ed dur s hres
      have hfalse : inZoneSlot b r s = false := by
        simp only [inZoneSlot, Bool.and_eq_false_imp, decide_eq_true_eq,
          decide_eq_false_iff_not]
        omega
      simp [hfalse]

theorem filter_zone_le_one (events : List CalEvent) (b dur sd ed : Nat) (r : Nat × Nat) :
    ((find_slot_in_range events b sd ed dur).toList.filter (inZoneSlot b r)).length ≤ 1 := by
  cases hres : find_slot_in_range events b sd ed dur with
  | none => simp
  | some s =>
      calc ((some s).toList.filter (inZoneSlot b r)).length
          ≤ (some s).toList.length := List.length_filter_le _ _
        _ = 1 := by simp

/-!
Claim theorems.
-/

/-- C2: the scanner's conflict predicate is exactly half-open interval
overlap: a candidate slot `[s, s + dur·60)` conflicts with an event
`[e.start, e.endT)` iff `s < e.endT` and `s + dur·60 > e.start`; in
particular a slot whose start equals the event's end, or whose end equals
the event's start, is not a conflict. -/
theorem eventBlocks_iff_halfopen_overlap (s dur : Nat) (e : CalEvent) :
    (eventBlocks s (s + dur * 60) e = true ↔ s < e.endT ∧ e.start < s + dur * 60) ∧
    (e.endT = s → eventBlocks s (s + dur * 60) e = false) ∧
    (e.start = s + dur * 60 → eventBlocks s (s + dur * 60) e = false) := by
  refine ⟨?_, ?_, ?_⟩
  · simp [eventBlocks]
    omega
  · intro h
    rw [eventBlocks_false_iff]
    omega
  · intro h
    rw [eventBlocks_false_iff]
    omega

/-- Concrete check for C2: a one-hour slot at 10:00 touching the end of a
9:00–10:00 event is not a conflict, and such a touching slot is in fact
returned by the scanner. -/
theorem eventBlocks_iff_halfopen_overlap_witness :
    eventBlocks 2040 (2040 + 1 * 60) ⟨1980, 2040⟩ = false ∧
    find_slot_in_range [⟨1980, 2040⟩] 0 1 5 1 = some ⟨2040, 2100, true⟩ := by
  constructor
  · have h := (eventBlocks_iff_halfopen_overlap 2040 1 ⟨1980, 2040⟩).2.1 rfl
    exact h
  · decide

/-- C10: for every provider response, the result dictionary returned by
`book_appointment` carries the constant status string "confirmed",
regardless of the status the provider reported. -/
theorem book_result_status_confirmed (ev : ProviderEvent) :
    (book_result ev).status = "confirmed" := rfl

/-- Concrete check for C10: even a provider response whose own status is
"tentative" is reported as confirmed. -/
theorem book_result_status_confirmed_witness :
    (book_result ⟨some "abc123", some "https://calendar/link", some "tentative"⟩).status
      = "confirmed" :=
  book_result_status_confirmed ⟨some "abc123", some "https://calendar/link", some "tentative"⟩

/-- C7 counterexample: `book_appointment` DOES include a secondary
timezone-label field (`'timeZone': 'America/New_York'`) alongside an
already-UTC timestamp, and construction succeeds rather than failing. -/
theorem book_event_body_timezone_cex :
    (book_event_body "2026-01-14T14:00:00+00:00" "2026-01-14T15:00:00+00:00"
        "customer@example.com" "Jane Doe" "2020 Toyota Camry").start.dateTime
      = "2026-01-14T14:00:00+00:00" ∧
    (book_event_body "2026-01-14T14:00:00+00:00" "2026-01-14T15:00:00+00:00"
        "customer@example.com" "Jane Doe" "2020 Toyota Camry").start.timeZone
      = some "America/New_York" ∧
    (book_event_body "2026-01-14T14:00:00+00:00" "2026-01-14T15:00:00+00:00"
        "customer@example.com" "Jane Doe" "2020 Toyota Camry").endT.timeZone
      = some "America/New_York" :=
  ⟨rfl, rfl, rfl⟩

/-- C7 (amended): for every input, the write request built by
`book_appointment` carries the given timestamps verbatim and ALWAYS pairs
each of them with the timezone label "America/New_York"; construction is
total and never fails. -/
theorem book_event_body_always_timezone
    (start_time end_time customer_email customer_name vehicle_info : String) :
    (book_event_body start_time end_time customer_email customer_name vehicle_info).start
      = { dateTime := start_time, timeZone := some "America/New_York" } ∧
    (book_event_body start_time end_time customer_email customer_name vehicle_info).endT
      = { dateTime := end_time, timeZone := some "America/New_York" } :=
  ⟨rfl, rfl⟩

/-- C5 counterexample: with `days_ahead = 1` (and no events, base day 0, a
Monday), `find_available_slots` returns slots 1, 7 and 11 days out — two of
the three slots lie strictly beyond the 1-day horizon. -/
theorem find_available_slots_horizon_cex :
    (find_available_slots [] 0 1 1).map (fun s => s.start / minutesPerDay) = [1, 7, 11] ∧
    ((find_available_slots [] 0 1 1).filter
        (fun s => decide (0 + 1 < s.start / minutesPerDay))).length = 2 :=
  ⟨by decide, by decide⟩

/-- C5 (amended): every slot returned by `find_available_slots` falls
between 1 and 14 days after the reference day — the window is the
hard-coded day range 1–14 of `zoneRanges`, independent of `days_ahead`
(which only bounds the external event fetch). -/
theorem find_available_slots_fixed_window (events : List CalEvent) (b da dur : Nat)
    (s : Slot) (hmem : s ∈ find_available_slots events b da dur) :
    b + 1 ≤ s.start / minutesPerDay ∧ s.start / minutesPerDay ≤ b + 14 := by
  rcases (mem_find_available_slots events b da dur s).mp hmem with h | h | h
  · have hb := find_slot_in_range_day_bounds events b 1 5 dur s h
    omega
  · have hb := find_slot_in_range_day_bounds events b 6 10 dur s h
    omega
  · have hb := find_slot_in_range_day_bounds events b 11 14 dur s h
    omega

/-- Concrete check for C5 (amended) at the counterexample input. -/
theorem find_available_slots_fixed_window_witness :
    (⟨1980, 2040, false⟩ : Slot) ∈ find_available_slots [] 0 1 1 ∧
    (0 + 1 ≤ (⟨1980, 2040, false⟩ : Slot).start / minutesPerDay ∧
      (⟨1980, 2040, false⟩ : Slot).start / minutesPerDay ≤ 0 + 14) :=
  ⟨by decide, find_available_slots_fixed_window [] 0 1 1 ⟨1980, 2040, false⟩ (by decide)⟩

/-- C9: the timezone annotation of a returned slot depends on whether the
event list is empty: a slot returned by `find_slot_in_range` carries
timezone-aware (UTC-offset) timestamps iff at least one event is present,
because the timezone-attachment step only runs inside the per-event loop. -/
theorem find_slot_in_range_aware_iff_events (events : List CalEvent) (b sd ed dur : Nat)
    (slot : Slot) (hres : find_slot_in_range events b sd ed dur = some slot) :
    slot.aware = true ↔ events ≠ [] := by
  obtain ⟨off, _, _, h, _, _, _, he3, _⟩ := find_slot_in_range_some events b sd ed dur slot hres
  rw [he3]
  cases events <;> simp

/-- Concrete check for C9: with one event present, the returned slot is
timezone-aware; the theorem also forces the event list to be non-empty. -/
theorem find_slot_in_range_aware_iff_events_witness :
    ([⟨0, 60⟩] : List CalEvent) ≠ [] ∧ (⟨1980, 2040, true⟩ : Slot).aware = true :=
  ⟨(find_slot_in_range_aware_iff_events [⟨0, 60⟩] 0 1 5 1 ⟨1980, 2040, true⟩ (by decide)).mp
      rfl,
    (find_slot_in_range_aware_iff_events [⟨0, 60⟩] 0 1 5 1 ⟨1980, 2040, true⟩ (by decide)).mpr
      (by simp)⟩

/-- C1: every slot returned by the availability scanner (as called by
`find_available_slots`) starts at or after 9:00, ends (start + duration)
at or before 17:00, does not fall on an excluded weekday (Saturday or
Sunday), and has zero overlap with any event of the input list. -/
theorem find_available_slots_slots_valid (events : List CalEvent) (b da dur : Nat)
    (s : Slot) (hmem : s ∈ find_available_slots events b da dur) :
    business_start * 60 ≤ s.start % minutesPerDay ∧
    s.start % minutesPerDay + dur * 60 ≤ business_end * 60 ∧
    weekday (s.start / minutesPerDay) < 5 ∧
    s.endT = s.start + dur * 60 ∧
    ∀ e ∈ events, s.endT ≤ e.start ∨ e.endT ≤ s.start := by
  have key : ∀ sd ed : Nat, find_slot_in_range events b sd ed dur = some s →
      business_start * 60 ≤ s.start % minutesPerDay ∧
      s.start % minutesPerDay + dur * 60 ≤ business_end * 60 ∧
      weekday (s.start / minutesPerDay) < 5 ∧
      s.endT = s.start + dur * 60 ∧
      ∀ e ∈ events, s.endT ≤ e.start ∨ e.endT ≤ s.start := by
    intro sd ed hres
    obtain ⟨off, _, _, h, hc, he1, he2, _, _⟩ :=
      find_slot_in_range_some events b sd ed dur s hres
    obtain ⟨hh1, hh2⟩ := (mem_hourRange h dur).mp hc.2.1
    have hfree := hc.2.2
    rw [← he1] at hfree
    rw [← he2] at hfree
    have hdiv : s.start / minutesPerDay = b + off := by
      rw [he1]
      simp only [slotStartOf, minutesPerDay, business_start, business_end] at hh1 hh2 ⊢
      omega
    have hmod : s.start % minutesPerDay = h * 60 := by
      rw [he1]
      simp only [slotStartOf, minutesPerDay, business_start, business_end] at hh1 hh2 ⊢
      omega
    refine ⟨?_, ?_, ?_, he2, hfree⟩
    · rw [hmod]
      simp only [business_start, business_end] at hh1 hh2 ⊢
      omega
    · rw [hmod]
      simp only [business_start, business_end] at hh1 hh2 ⊢
      omega
    · rw [hdiv]
      exact hc.1
  rcases (mem_find_available_slots events b da dur s).mp hmem with h | h | h
  · exact key 1 5 h
  · exact key 6 10 h
  · exact key 11 14 h

/-- Concrete check for C1: with a 9:00–10:00 event on the first scanned
day, the returned near-term slot (10:00–11:00, day 1) satisfies all four
conditions. -/
theorem find_available_slots_slots_valid_witness :
    (⟨2040, 2100, true⟩ : Slot) ∈ find_available_slots [⟨1980, 2040⟩] 0 14 1 ∧
    (business_start * 60 ≤ (⟨2040, 2100, true⟩ : Slot).start % minutesPerDay ∧
      (⟨2040, 2100, true⟩ : Slot).start % minutesPerDay + 1 * 60 ≤ business_end * 60 ∧
      weekday ((⟨2040, 2100, true⟩ : Slot).start / minutesPerDay) < 5 ∧
      (⟨2040, 2100, true⟩ : Slot).endT = (⟨2040, 2100, true⟩ : Slot).start + 1 * 60 ∧
      ∀ e ∈ ([⟨1980, 2040⟩] : List CalEvent),
        (⟨2040, 2100, true⟩ : Slot).endT ≤ e.start ∨
          e.endT ≤ (⟨2040, 2100, true⟩ : Slot).start) :=
  ⟨by decide,
    find_available_slots_slots_valid [⟨1980, 2040⟩] 0 14 1 ⟨2040, 2100, true⟩ (by decide)⟩

/-- C3: for every input, `find_available_slots` never returns two slots on
the same calendar date, returns at most one slot per configured zone, and
returns at most 3 slots. -/
theorem find_available_slots_distinct_dates (events : List CalEvent) (b da dur : Nat) :
    (find_available_slots events b da dur).Pairwise
      (fun s1 s2 => s1.start / minutesPerDay ≠ s2.start / minutesPerDay) ∧
    (find_available_slots events b da dur).length ≤ 3 ∧
    ∀ r ∈ zoneRanges,
      ((find_available_slots events b da dur).filter (inZoneSlot b r)).length ≤ 1 := by
  refine ⟨?_, ?_, ?_⟩
  · rw [find_available_slots_eq]
    apply pairwise_toList_append
    · intro a c ha hc
      have h1 := find_slot_in_range_day_bounds events b 1 5 dur a ha
      have h2 := find_slot_in_range_day_bounds events b 6 10 dur c hc
      omega
    · intro a c ha hc
      have h1 := find_slot_in_range_day_bounds events b 1 5 dur a ha
      have h2 := find_slot_in_range_day_bounds events b 11 14 dur c hc
      omega
    · intro a c ha hc
      have h1 := find_slot_in_range_day_bounds events b 6 10 dur a ha
      have h2 := find_slot_in_range_day_bounds events b 11 14 dur c hc
      omega
  · rw [find_available_slots_eq]
    simp only [List.length_append]
    have hlen : ∀ o : Option Slot, o.toList.length ≤ 1 := fun o => by cases o <;> simp
    have t1 := hlen (find_slot_in_range events b 1 5 dur)
    have t2 := hlen (find_slot_in_range events b 6 10 dur)
    have t3 := hlen (find_slot_in_range events b 11 14 dur)
    omega
  · intro r hr
    rw [find_available_slots_eq, List.filter_append, List.filter_append,
      List.length_append, List.length_append]
    rcases show r = (1, 5) ∨ r = (6, 10) ∨ r = (11, 14) by
        simpa [zoneRanges] using hr with rfl | rfl | rfl
    · have hA := filter_zone_le_one events b dur 1 5 (1, 5)
      have hB := filter_zone_other events b dur 6 10 (1, 5) (by decide)
      have hC := filter_zone_other events b dur 11 14 (1, 5) (by decide)
      omega
    · have hA := filter_zone_other events b dur 1 5 (6, 10) (by decide)
      have hB := filter_zone_le_one events b dur 6 10 (6, 10)
      have hC := filter_zone_other events b dur 11 14 (6, 10) (by decide)
      omega
    · have hA := filter_zone_other events b dur 1 5 (11, 14) (by decide)
      have hB := filter_zone_other events b dur 6 10 (11, 14) (by decide)
      have hC := filter_zone_le_one events b dur 11 14 (11, 14)
      omega

/-- Concrete check for C3 at a concrete input, for the NEAR zone. -/
theorem find_available_slots_distinct_dates_witness :
    ((find_available_slots [] 0 14 1).filter (inZoneSlot 0 (1, 5))).length ≤ 1 :=
  (find_available_slots_distinct_dates [] 0 14 1).2.2 (1, 5) (by decide)

/-- C4: within one zone the scanner picks the first available day (ascending
day order) and on it the earliest conflict-free business-hour start
(ascending hour order); a zone with no conflict-free day yields `none`, and
only then. -/
theorem find_slot_in_range_first_candidate (events : List CalEvent) (b sd ed dur : Nat) :
    (∀ slot, find_slot_in_range events b sd ed dur = some slot →
      ∃ off h, sd ≤ off ∧ off ≤ ed ∧ dayCandidate events b dur off h ∧
        slot.start = slotStartOf (b + off) h ∧ slot.endT = slot.start + dur * 60 ∧
        ∀ off2 h2, sd ≤ off2 → off2 ≤ ed → dayCandidate events b dur off2 h2 →
          off ≤ off2 ∧ (off = off2 → h ≤ h2)) ∧
    (find_slot_in_range events b sd ed dur = none →
      ∀ off h, sd ≤ off → off ≤ ed → ¬ dayCandidate events b dur off h) := by
  constructor
  · intro slot hres
    obtain ⟨off, hb1, hb2, h, hc, he1, he2, _, hmin⟩ :=
      find_slot_in_range_some events b sd ed dur slot hres
    exact ⟨off, h, hb1, hb2, hc, he1, he2,
      fun off2 h2 hx hy hz => hmin off2 hx hy h2 hz⟩
  · intro hres off h h1 h2
    exact (find_slot_in_range_none events b sd ed dur).mp hres off h1 h2 h

/-- Concrete check for C4 (spec Scenario B): a 9:00–10:00 event on day 1
makes that day's candidate 10:00 — the day is not dropped. -/
theorem find_slot_in_range_first_candidate_witness :
    find_slot_in_range [⟨1980, 2040⟩] 0 1 5 1 = some ⟨2040, 2100, true⟩ ∧
    (∃ off h, 1 ≤ off ∧ off ≤ 5 ∧ dayCandidate [⟨1980, 2040⟩] 0 1 off h ∧
      (⟨2040, 2100, true⟩ : Slot).start = slotStartOf (0 + off) h ∧
      (⟨2040, 2100, true⟩ : Slot).endT = (⟨2040, 2100, true⟩ : Slot).start + 1 * 60 ∧
      ∀ off2 h2, 1 ≤ off2 → off2 ≤ 5 → dayCandidate [⟨1980, 2040⟩] 0 1 off2 h2 →
        off ≤ off2 ∧ (off = off2 → h ≤ h2)) :=
  ⟨by decide,
    (find_slot_in_range_first_candidate [⟨1980, 2040⟩] 0 1 5 1).1 ⟨2040, 2100, true⟩
      (by decide)⟩

/-- C6: `find_available_slots` returns the empty list iff no scanned
business day (day offsets 1–14) has any conflict-free business-hour
start. -/
theorem find_available_slots_empty_iff (events : List CalEvent) (b da dur : Nat) :
    find_available_slots events b da dur = [] ↔
      ∀ off h, 1 ≤ off → off ≤ 14 → ¬ dayCandidate events b dur off h := by
  rw [find_available_slots_eq]
  constructor
  · intro hemp off h h1 h2
    have hn1 : find_slot_in_range events b 1 5 dur = none := by
      cases hres : find_slot_in_range events b 1 5 dur with
      | none => rfl
      | some s =>
          rw [hres] at hemp
          simp at hemp
    have hn2 : find_slot_in_range events b 6 10 dur = none := by
      cases hres : find_slot_in_range events b 6 10 dur with
      | none => rfl
      | some s =>
          rw [hres] at hemp
          simp at hemp
    have hn3 : find_slot_in_range events b 11 14 dur = none := by
      cases hres : find_slot_in_range events b 11 14 dur with
      | none => rfl
      | some s =>
          rw [hres] at hemp
          simp at hemp
    by_cases hc1 : off ≤ 5
    · exact (find_slot_in_range_none events b 1 5 dur).mp hn1 off h1 hc1 h
    · by_cases hc2 : off ≤ 10
      · exact (find_slot_in_range_none events b 6 10 dur).mp hn2 off (by omega) hc2 h
      · exact (find_slot_in_range_none events b 11 14 dur).mp hn3 off (by omega) (by omega) h
  · intro hall
    have hn1 : find_slot_in_range events b 1 5 dur = none :=
      (find_slot_in_range_none events b 1 5 dur).mpr
        (fun off h1 h2 h => hall off h h1 (by omega))
    have hn2 : find_slot_in_range events b 6 10 dur = none :=
      (find_slot_in_range_none events b 6 10 dur).mpr
        (fun off h1 h2 h => hall off h (by omega) (by omega))
    have hn3 : find_slot_in_range events b 11 14 dur = none :=
      (find_slot_in_range_none events b 11 14 dur).mpr
        (fun off h1 h2 h => hall off h (by omega) (by omega))
    rw [hn1, hn2, hn3]
    rfl

/-- Concrete check for C6: one event covering the whole window forces an
empty result, hence (by the theorem) no scanned day has a candidate. -/
theorem find_available_slots_empty_iff_witness :
    ¬ dayCandidate [⟨0, 30000⟩] 0 1 3 9 :=
  (find_available_slots_empty_iff [⟨0, 30000⟩] 0 14 1).mp (by decide) 3 9 (by omega)
    (by omega)

/-- C8: if the full response does not contain the A2UI delimiter, the final
message is a single plain-text part holding the (stripped) response; if it
does, the text before the first delimiter becomes a text part (omitted when
blank) and a decoded JSON array after the delimiter becomes one data part
per array element. -/
theorem finalParts_envelope (parse : List Char → Option JsonVal) (r : List Char) :
    (splitOnce a2uiDelim r = none → finalParts parse r = [PartM.text (stripWs r)]) ∧
    (∀ pre post xs, splitOnce a2uiDelim r = some (pre, post) →
      (stripWs post).isEmpty = false →
      parse (cleanJsonString post) = some (JsonVal.arr xs) →
      finalParts parse r =
        (if (stripWs pre).isEmpty then [] else [PartM.text (stripWs pre)]) ++
          xs.map PartM.data) := by
  constructor
  · intro hn
    simp [finalParts, hn]
  · intro pre post xs hs hpost hparse
    simp [finalParts, hs, hpost, hparse]

/-- Concrete check for C8: a response with free text, the delimiter and a
two-element JSON array yields one text part followed by two data parts. -/
theorem finalParts_envelope_witness :
    finalParts sampleParse sampleResponse =
      [PartM.text "Here you go".data, PartM.data (JsonVal.num 1),
        PartM.data (JsonVal.num 2)] :=
  (finalParts_envelope sampleParse sampleResponse).2 "Here you go ".data " [1,2]".data
    [JsonVal.num 1, JsonVal.num 2] rfl rfl rfl
